import Mathlib

/-
  Verification development for the hintless single-server PIR protocol.

  The repository ships the benchmark harness
  `hintless_simplepir/hintless_simplepir_benchmarks.cc` together with a
  natural-language specification of the protocol engine (Parameters,
  Database, Server, Client and the ring-LWE hint sub-protocol).  The
  engine sources themselves are external to the repository snapshot, so
  the engine is modelled here from the specification, while the concrete
  parameter set `kParameters` and the benchmark `main` function are
  embedded directly from the benchmark source file.

  Modelling conventions:
  - machine integers are ℕ / ℤ with explicit `% q` where the protocol
    reduces modulo the LWE modulus;
  - fallible operations return `Except PirError`;
  - the secondary (ring-LWE) scheme is external to the engine and is
    modelled at its boundary, per the spec: the server's homomorphic
    evaluation of the hint correction is represented by the value the
    client would decrypt, namely the hint matrix applied to the client
    secret plus an evaluation noise bounded by the configured secondary
    error variance.
-/

namespace HintlessPir

deriving instance DecidableEq for Except

/-- Error taxonomy of the protocol, from the specification. -/
inductive PirError where
  | ConfigError
  | OutOfRange
  | IncompatibleParams
  | MalformedRequest
  | PreprocessingError
  | DecodeError
deriving DecidableEq

/-- PRNG selector appearing in the benchmark's parameter set. -/
inductive PrngType where
  | hkdf
  | chacha
deriving DecidableEq

/-- Secondary-scheme (ring-LWE) parameters, fields as in the benchmark source. -/
structure RlweParameters where
  log_n : ℕ
  qs : List ℕ
  ts : List ℕ
  gadget_log_bs : List ℕ
  error_variance : ℕ
  prng_type : PrngType
  rows_per_block : ℕ
deriving DecidableEq

/-- Protocol parameter set, fields as in the benchmark source. -/
structure Parameters where
  db_rows : ℕ
  db_cols : ℕ
  db_record_bit_size : ℕ
  lwe_secret_dim : ℕ
  lwe_modulus_bit_size : ℕ
  lwe_plaintext_bit_size : ℕ
  lwe_error_variance : ℕ
  linpir_params : RlweParameters
  prng_type : PrngType
deriving DecidableEq

/-- The concrete parameter set `kParameters` of the benchmark source
(lines 40-59 of `hintless_simplepir_benchmarks.cc`). -/
def kParameters : Parameters :=
  { db_rows := 1024
  , db_cols := 1024
  , db_record_bit_size := 64
  , lwe_secret_dim := 1024
  , lwe_modulus_bit_size := 32
  , lwe_plaintext_bit_size := 8
  , lwe_error_variance := 8
  , linpir_params :=
      { log_n := 12
      , qs := [35184371884033, 35184371703809]
      , ts := [2056193, 1990657]
      , gadget_log_bs := [16, 16]
      , error_variance := 8
      , prng_type := PrngType.hkdf
      , rows_per_block := 1024 }
  , prng_type := PrngType.hkdf }

/-- Primary-scheme plaintext modulus: records are packed into entries
modulo `2 ^ lwe_plaintext_bit_size`. -/
def plainModulus (p : Parameters) : ℕ := 2 ^ p.lwe_plaintext_bit_size

/-- Primary-scheme ciphertext modulus `2 ^ lwe_modulus_bit_size`. -/
def lweModulus (p : Parameters) : ℕ := 2 ^ p.lwe_modulus_bit_size

/-- Scaling factor between plaintext and ciphertext modulus. -/
def delta (p : Parameters) : ℕ :=
  2 ^ (p.lwe_modulus_bit_size - p.lwe_plaintext_bit_size)

/-- Total record count of a database with this parameter set:
the spec's concrete scenario fixes rows·cols records. -/
def numRecords (p : Parameters) : ℕ := p.db_rows * p.db_cols

/-- Number of plaintext slots a record occupies (wide records are split
across several plaintext-modulus entries). -/
def slotsPerRecord (p : Parameters) : ℕ :=
  (p.db_record_bit_size + p.lwe_plaintext_bit_size - 1) / p.lwe_plaintext_bit_size

/-- Number of payload bits carried by slot `m` of a record. -/
def slotBitSize (p : Parameters) (m : ℕ) : ℕ :=
  min p.lwe_plaintext_bit_size (p.db_record_bit_size - m * p.lwe_plaintext_bit_size)

/-- Byte width of one record. -/
def recordNumBytes (p : Parameters) : ℕ := p.db_record_bit_size / 8

/-- Serialized byte width of one primary-scheme ciphertext entry. -/
def lweEntryByteSize (p : Parameters) : ℕ := (p.lwe_modulus_bit_size + 7) / 8

/-- Serialized byte width of one secondary-scheme (64-bit) entry. -/
def rlweEntryByteSize : ℕ := 8

/-- Number of entries of the secondary-scheme key material: one ring
element per modulus of the chain. -/
def kmLen (p : Parameters) : ℕ :=
  p.linpir_params.qs.length * 2 ^ p.linpir_params.log_n

/-- Serialized byte size of the secondary-scheme key material. -/
def keyMaterialSize (p : Parameters) : ℕ := kmLen p * rlweEntryByteSize

/-- Modelled from the spec: Parameter Set validation (spec 4.1); the
Parameter Set implementation is not part of the repository snapshot.
Checks, in the spec's order: row·col at least the required record
capacity; the plaintext bit-size leaves room for the configured error
variances under the modulus bit-size (the decode noise budget); the
secondary-scheme modulus chain is consistent with the configured gadget
bases and plaintext moduli and is nonempty.  The remainder-block policy
for `rows_per_block` is left open by the spec and is deliberately not
checked here. -/
def paramsOk (p : Parameters) (capacity : ℕ) : Bool :=
  decide (capacity ≤ p.db_rows * p.db_cols) &&
  decide (p.lwe_plaintext_bit_size ≤ p.lwe_modulus_bit_size) &&
  decide (2 * (p.db_cols * plainModulus p * p.lwe_error_variance
      + p.linpir_params.error_variance) < delta p) &&
  decide (p.linpir_params.qs.length = p.linpir_params.gadget_log_bs.length) &&
  decide (p.linpir_params.ts.length = p.linpir_params.qs.length) &&
  decide (p.linpir_params.qs.length ≠ 0)

/-- Modelled from the spec: validated construction of a Parameter Set
(spec 4.1 and 9); fails with `ConfigError` on an invalid configuration,
before any cryptographic key material exists. -/
def Parameters.Create (p : Parameters) (capacity : ℕ) : Except PirError Parameters :=
  if paramsOk p capacity then .ok p else .error .ConfigError

/-- Modelled from the spec: the encoded database (spec 4.2), a
rectangular arrangement of plaintext entries; `records` lists each
record's plaintext slots. -/
structure Database where
  params : Parameters
  records : List (List ℕ)
deriving DecidableEq

/-- Number of records held by the database. -/
def Database.NumRecords (db : Database) : ℕ := db.records.length

/-- Modelled from the spec: `RecordAt(index)`, returning the original
record content; fails with `OutOfRange` when the index is at least the
total record count. -/
def Database.Record (db : Database) (i : ℕ) : Except PirError (List ℕ) :=
  if i < db.NumRecords then .ok (db.records.getD i []) else .error .OutOfRange

/-- Well-formedness of a database for a parameter set: record count and
per-record slot shape match, and every slot value fits its bit width. -/
def dbOk (p : Parameters) (db : Database) : Bool :=
  decide (db.params = p) &&
  decide (db.records.length = numRecords p) &&
  db.records.all fun rec =>
    decide (rec.length = slotsPerRecord p) &&
    (List.range (slotsPerRecord p)).all fun m =>
      decide (rec.getD m 0 < 2 ^ slotBitSize p m)

/-- Modelled from the spec: the closed-form record-to-matrix mapping of
the Database Encoder (spec 4.2).  Slot `m` of the records forms a
rows × cols matrix; record `i` sits at row `i % rows`, column
`i / rows`. -/
def dbMatrix (p : Parameters) (db : Database) (m r c : ℕ) : ℤ :=
  ((db.records.getD (c * p.db_rows + r) []).getD m 0 : ℕ)

/-- Inner product of length `k` of two integer-valued coordinate maps. -/
def dotc (k : ℕ) (u v : ℕ → ℤ) : ℤ :=
  (Finset.range k).sum fun j => u j * v j

/-- One-hot selection vector: 1 at the selected coordinate, 0 elsewhere. -/
def oneHotZ (sel j : ℕ) : ℤ := if j = sel then 1 else 0

/-- Modelled from the spec: the server-published Public Parameters,
holding the primary-scheme public matrix and the Hint Engine's
preprocessed per-entry coefficients (the hint matrix of each slot). -/
structure PublicParams where
  params : Parameters
  lweA : List (List ℤ)
  hints : List (List (List ℤ))
deriving DecidableEq

/-- Entry of the primary-scheme public matrix. -/
def aEntry (pp : PublicParams) (j k : ℕ) : ℤ := (pp.lweA.getD j []).getD k 0

/-- Entry of the preprocessed hint matrix for slot `m`. -/
def hintEntry (pp : PublicParams) (m r k : ℕ) : ℤ :=
  ((pp.hints.getD m []).getD r []).getD k 0

/-- Modelled from the spec: server preprocessing output (spec 4.3, 4.4).
The public matrix is derived from the seeded generator `aRnd`, reduced
modulo the LWE modulus; the hint coefficients are the product of each
slot's database matrix with the public matrix. -/
def computePublicParams (p : Parameters) (db : Database) (aRnd : ℕ → ℕ → ℤ) :
    PublicParams :=
  let q : ℤ := (lweModulus p : ℕ)
  let A : ℕ → ℕ → ℤ := fun j k => aRnd j k % q
  { params := p
  , lweA := (List.range p.db_cols).map fun j =>
      (List.range p.lwe_secret_dim).map fun k => A j k
  , hints := (List.range (slotsPerRecord p)).map fun m =>
      (List.range p.db_rows).map fun r =>
        (List.range p.lwe_secret_dim).map fun k =>
          dotc p.db_cols (fun j => dbMatrix p db m r j) (fun j => A j k) % q }

/-- Server lifecycle states (spec 4.4). -/
inductive ServerStatus where
  | unpreprocessed
  | preprocessed
  | serving
deriving DecidableEq

/-- Modelled from the spec: the Server, owning the encoded database and,
once preprocessed, the Public Parameters. -/
structure Server where
  params : Parameters
  db : Database
  pp : Option PublicParams
  status : ServerStatus
deriving DecidableEq

/-- Modelled from the spec: `CreateWithDatabase`, yielding an
unpreprocessed Server. -/
def Server.CreateWithDatabase (p : Parameters) (db : Database) : Server :=
  { params := p, db := db, pp := none, status := .unpreprocessed }

/-- Synthetic random records used by the benchmark path, each slot value
reduced to its configured bit width. -/
def randomRecords (p : Parameters) (rnd : ℕ → ℕ → ℕ) : List (List ℕ) :=
  (List.range (numRecords p)).map fun i =>
    (List.range (slotsPerRecord p)).map fun m => rnd i m % 2 ^ slotBitSize p m

/-- Modelled from the spec: `CreateWithRandomDatabaseRecords`, building
an unpreprocessed Server over a synthetic random database. -/
def Server.CreateWithRandomDatabaseRecords (p : Parameters) (rnd : ℕ → ℕ → ℕ) :
    Server :=
  Server.CreateWithDatabase p { params := p, records := randomRecords p rnd }

/-- Accessor for the server's database, as used by the benchmark. -/
def Server.GetDatabase (sv : Server) : Database := sv.db

/-- Modelled from the spec: `Preprocess()` (spec 4.4): valid on an
unpreprocessed server, fails with `PreprocessingError` on a
parameter/database shape mismatch, otherwise installs the Public
Parameters and moves to `preprocessed`. -/
def Server.Preprocess (sv : Server) (aRnd : ℕ → ℕ → ℤ) : Except PirError Server :=
  match sv.status with
  | .unpreprocessed =>
    if dbOk sv.params sv.db then
      let newPP := computePublicParams sv.params sv.db aRnd
      .ok { sv with pp := some newPP, status := .preprocessed }
    else .error .PreprocessingError
  | _ => .error .PreprocessingError

/-- Modelled from the spec: `GetPublicParams()`, valid only after a
successful `Preprocess()`. -/
def Server.GetPublicParams (sv : Server) : Except PirError PublicParams :=
  match sv.status with
  | .unpreprocessed => .error .PreprocessingError
  | _ =>
    match sv.pp with
    | some pp => .ok pp
    | none => .error .PreprocessingError

/-- Secondary-scheme key material block (sent on a session's first
request only); the payload is uninterpreted, only its size matters. -/
structure KeyMaterial where
  galois : List ℤ
deriving DecidableEq

/-- Boundary model of a secondary-scheme ciphertext: carries the value
the holder of the secondary secret key would decrypt. -/
structure RlweCt where
  payload : List ℤ
deriving DecidableEq

/-- Modelled from the spec: a client Request — the primary-scheme query
ciphertext, the encrypted client secret consumed by the Hint Engine, and
the optional key-material block. -/
structure Request where
  b : List ℤ
  encS : RlweCt
  keyMaterial : Option KeyMaterial
deriving DecidableEq

/-- Serialized byte size of a request under a parameter set. -/
def requestSize (p : Parameters) (r : Request) : ℕ :=
  r.b.length * lweEntryByteSize p + r.encS.payload.length * rlweEntryByteSize +
    match r.keyMaterial with
    | none => 0
    | some km => km.galois.length * rlweEntryByteSize

/-- Modelled from the spec: the server Response — primary-scheme answer
ciphertexts `ct_records` and Hint Engine correction ciphertexts
`linpir_responses` (field names as in the benchmark source). -/
structure Response where
  ct_records : List (List ℤ)
  linpir_responses : List (List ℤ)
deriving DecidableEq

/-- Modelled from the spec: `HandleRequest` (spec 4.4): valid once
preprocessed; fails with `MalformedRequest` when the request's
dimensions do not match the Parameter Set; computes the primary
homomorphic answer (database matrix times query vector, mod q) and the
Hint Engine correction (hint matrix applied to the encrypted secret,
with bounded evaluation noise `hnRnd`); enters `serving`. -/
def Server.HandleRequest (sv : Server) (req : Request) (hnRnd : ℕ → ℕ → ℤ) :
    Except PirError (Response × Server) :=
  match sv.status with
  | .unpreprocessed => .error .PreprocessingError
  | _ =>
    match sv.pp with
    | none => .error .PreprocessingError
    | some pp =>
      if req.b.length = sv.params.db_cols ∧
          req.encS.payload.length = sv.params.lwe_secret_dim then
        let p := sv.params
        let q : ℤ := (lweModulus p : ℕ)
        let bD : ℕ → ℤ := fun j => req.b.getD j 0
        let sD : ℕ → ℤ := fun k => req.encS.payload.getD k 0
        let resp : Response :=
          { ct_records := (List.range (slotsPerRecord p)).map fun m =>
              (List.range p.db_rows).map fun r =>
                dotc p.db_cols (fun j => dbMatrix p sv.db m r j) bD % q
          , linpir_responses := (List.range (slotsPerRecord p)).map fun m =>
              (List.range p.db_rows).map fun r =>
                (dotc p.lwe_secret_dim (fun k => hintEntry pp m r k) sD
                  + hnRnd m r) % q }
        .ok (resp, { sv with status := .serving })
      else .error .MalformedRequest

/-- Randomness consumed by one `GenerateRequest` call: the primary
encryption noise and the fresh key-material payload. -/
structure ReqRnd where
  e : ℕ → ℤ
  km : ℕ → ℤ

/-- Modelled from the spec: the Client, owning its cached primary secret
and the session's cached secondary key material. -/
structure Client where
  params : Parameters
  pp : PublicParams
  secret : ℕ → ℤ
  cachedKey : Option KeyMaterial
  pendingIndex : Option ℕ

/-- Modelled from the spec: `Client.Create`, validating compatibility of
the parameter set with the server's public parameters. -/
def Client.Create (p : Parameters) (pp : PublicParams) (s : ℕ → ℤ) :
    Except PirError Client :=
  if pp.params = p then
    .ok { params := p, pp := pp, secret := s, cachedKey := none, pendingIndex := none }
  else .error .IncompatibleParams

/-- Fresh secondary-scheme key material of the configured size. -/
def genKeyMaterial (p : Parameters) (rnd : ReqRnd) : KeyMaterial :=
  { galois := (List.range (kmLen p)).map rnd.km }

/-- Modelled from the spec: `GenerateRequest(index)` (spec 4.5): fails
with `OutOfRange` when the index is at least the total record count;
otherwise encrypts the one-hot column selector under the cached secret,
attaches fresh key material exactly when none is cached yet, and caches
it. -/
def Client.GenerateRequest (c : Client) (i : ℕ) (rnd : ReqRnd) :
    Except PirError (Request × Client) :=
  if i < numRecords c.params then
    let p := c.params
    let q : ℤ := (lweModulus p : ℕ)
    let sel := i / p.db_rows
    let bFun : ℕ → ℤ := fun j =>
      (dotc p.lwe_secret_dim (fun k => aEntry c.pp j k) c.secret
        + rnd.e j + (delta p : ℕ) * oneHotZ sel j) % q
    let km : Option KeyMaterial :=
      match c.cachedKey with
      | none => some (genKeyMaterial p rnd)
      | some _ => none
    let req : Request :=
      { b := (List.range p.db_cols).map bFun
      , encS := { payload := (List.range p.lwe_secret_dim).map c.secret }
      , keyMaterial := km }
    let ck : Option KeyMaterial :=
      match c.cachedKey with
      | none => some (genKeyMaterial p rnd)
      | some k0 => some k0
    let c1 : Client := { c with cachedKey := ck, pendingIndex := some i }
    .ok (req, c1)
  else .error .OutOfRange

/-- Noise-rounding decode of one slot of the response at row `r`:
subtract the hint correction from the answer, reduce mod q, round by the
plaintext scaling factor. -/
def decodeSlot (p : Parameters) (resp : Response) (m r : ℕ) : ℕ :=
  let q : ℤ := (lweModulus p : ℕ)
  let a := (resp.ct_records.getD m []).getD r 0
  let h := (resp.linpir_responses.getD m []).getD r 0
  (((a - h) % q).toNat + delta p / 2) / delta p % plainModulus p

/-- Modelled from the spec: `RecoverRecord` (spec 4.5): decode each slot
of the pending query's row, fail with `DecodeError` when a recovered
value falls outside its valid plaintext range. -/
def Client.RecoverRecord (c : Client) (resp : Response) : Except PirError (List ℕ) :=
  match c.pendingIndex with
  | none => .error .DecodeError
  | some i =>
    let p := c.params
    let vals := (List.range (slotsPerRecord p)).map fun m =>
      decodeSlot p resp m (i % p.db_rows)
    if (List.range (slotsPerRecord p)).all
        (fun m => decide (vals.getD m 0 < 2 ^ slotBitSize p m)) then
      .ok vals
    else .error .DecodeError

/-- A client session: issue the listed queries in order, collecting the
produced requests. -/
def sessionRequests : Client → List (ℕ × ReqRnd) → Except PirError (List Request)
  | _, [] => .ok []
  | c, qr :: rest =>
    (c.GenerateRequest qr.1 qr.2).bind fun rc =>
      (sessionRequests rc.2 rest).map fun reqs => rc.1 :: reqs

/-- Bounded primary encryption noise: the scheme guarantee tied to the
configured error variance. -/
def errBounded (p : Parameters) (e : ℕ → ℤ) : Prop :=
  ∀ j, j < p.db_cols → (e j).natAbs ≤ p.lwe_error_variance

/-- Bounded Hint Engine evaluation noise: the sub-protocol guarantee
tied to the configured secondary error variance (spec 4.3). -/
def hintNoiseBounded (p : Parameters) (hn : ℕ → ℕ → ℤ) : Prop :=
  ∀ m, m < slotsPerRecord p → ∀ r, r < p.db_rows → (hn m r).natAbs ≤ p.linpir_params.error_variance

/-- The full protocol round trip of the spec's core law: build a server
on the database, preprocess, create a client, query index `i`, handle
the request, recover the record. -/
def pirRoundTrip (p : Parameters) (db : Database) (aRnd : ℕ → ℕ → ℤ)
    (s : ℕ → ℤ) (rnd : ReqRnd) (hnRnd : ℕ → ℕ → ℤ) (i : ℕ) :
    Except PirError (List ℕ) :=
  (Server.CreateWithDatabase p db).Preprocess aRnd |>.bind fun sv1 =>
  sv1.GetPublicParams.bind fun pp =>
  (Client.Create p pp s).bind fun c =>
  (c.GenerateRequest i rnd).bind fun rc =>
  (sv1.HandleRequest rc.1 hnRnd).bind fun respSv =>
  rc.2.RecoverRecord respSv.1

/-- Operations a caller can attempt on a server, for the lifecycle
analysis. -/
inductive ServerOp where
  | preprocessOp (aRnd : ℕ → ℕ → ℤ)
  | handleOp (req : Request) (hnRnd : ℕ → ℕ → ℤ)
  | getParamsOp

/-- One attempted operation: a failing operation leaves the server
unchanged (spec 7: per-request failures do not affect the server). -/
def Server.stepOp (sv : Server) : ServerOp → Server
  | .preprocessOp a =>
    match sv.Preprocess a with
    | .ok sv1 => sv1
    | .error _ => sv
  | .handleOp r hn =>
    match sv.HandleRequest r hn with
    | .ok x => x.2
    | .error _ => sv
  | .getParamsOp => sv

/-- Run a sequence of attempted operations against a server. -/
def Server.runOps (sv : Server) : List ServerOp → Server
  | [] => sv
  | op :: rest => (sv.stepOp op).runOps rest

/-- Command line of the benchmark executable, restricted to what `main`
inspects: whether a benchmark-filter value was supplied. -/
structure BenchCmdLine where
  filterArg : Option (List Char)

/-- Outcome of the benchmark executable's `main`. -/
structure MainOutcome where
  exitCode : ℕ
  ranBenchmarks : Bool

/-- Embedding of `main` (lines 141-150 of the benchmark source): the
filter flag is cleared, then flag parsing installs any supplied value;
benchmarks run only when the resulting filter is nonempty; the return
value is always 0. -/
def mainModel (args : BenchCmdLine) : MainOutcome :=
  let cleared : List Char := []
  let filterVal : List Char :=
    match args.filterArg with
    | some v => v
    | none => cleared
  { exitCode := 0, ranBenchmarks := !filterVal.isEmpty }

/-- The server state right after successful preprocessing. -/
def serverPre (p : Parameters) (db : Database) (aRnd : ℕ → ℕ → ℤ) : Server :=
  { params := p
  , db := db
  , pp := some (computePublicParams p db aRnd)
  , status := ServerStatus.preprocessed }

/-- The freshly created client of the round-trip pipeline. -/
def clientInit (p : Parameters) (db : Database) (aRnd : ℕ → ℕ → ℤ) (s : ℕ → ℤ) : Client :=
  { params := p
  , pp := computePublicParams p db aRnd
  , secret := s
  , cachedKey := none
  , pendingIndex := none }

/-- The request produced by a fresh client querying index `i`. -/
def reqOf (p : Parameters) (pp : PublicParams) (s : ℕ → ℤ) (rnd : ReqRnd) (i : ℕ) : Request :=
  { b := (List.range p.db_cols).map fun j =>
      (dotc p.lwe_secret_dim (fun k => aEntry pp j k) s + rnd.e j
        + ((delta p : ℕ) : ℤ) * oneHotZ (i / p.db_rows) j) % ((lweModulus p : ℕ) : ℤ)
  , encS := { payload := (List.range p.lwe_secret_dim).map s }
  , keyMaterial := some (genKeyMaterial p rnd) }

/-- The client state after its first `GenerateRequest` for index `i`. -/
def clientAfter (p : Parameters) (db : Database) (aRnd : ℕ → ℕ → ℤ) (s : ℕ → ℤ)
    (rnd : ReqRnd) (i : ℕ) : Client :=
  { params := p
  , pp := computePublicParams p db aRnd
  , secret := s
  , cachedKey := some (genKeyMaterial p rnd)
  , pendingIndex := some i }

/-- The response the server computes for a request. -/
def respOf (p : Parameters) (db : Database) (pp : PublicParams) (req : Request)
    (hn : ℕ → ℕ → ℤ) : Response :=
  { ct_records := (List.range (slotsPerRecord p)).map fun m =>
      (List.range p.db_rows).map fun r =>
        dotc p.db_cols (fun j => dbMatrix p db m r j) (fun j => req.b.getD j 0)
          % ((lweModulus p : ℕ) : ℤ)
  , linpir_responses := (List.range (slotsPerRecord p)).map fun m =>
      (List.range p.db_rows).map fun r =>
        (dotc p.lwe_secret_dim (fun k => hintEntry pp m r k)
            (fun k => req.encS.payload.getD k 0) + hn m r)
          % ((lweModulus p : ℕ) : ℤ) }

/-- Small concrete parameter set used to exhibit concrete protocol runs. -/
def pTiny : Parameters :=
  { db_rows := 2
  , db_cols := 2
  , db_record_bit_size := 4
  , lwe_secret_dim := 1
  , lwe_modulus_bit_size := 10
  , lwe_plaintext_bit_size := 2
  , lwe_error_variance := 1
  , linpir_params :=
      { log_n := 1
      , qs := [12289]
      , ts := [17]
      , gadget_log_bs := [4]
      , error_variance := 1
      , prng_type := PrngType.hkdf
      , rows_per_block := 2 }
  , prng_type := PrngType.hkdf }

/-- Concrete four-record database over `pTiny`. -/
def dbTiny : Database :=
  { params := pTiny, records := [[1, 2], [3, 0], [2, 1], [0, 3]] }

/-- Concrete public-matrix seed. -/
def aTiny : ℕ → ℕ → ℤ := fun j k => (3 * j + 7 * k + 5 : ℕ)

/-- Concrete client secret. -/
def sTiny : ℕ → ℤ := fun k => (4 * k + 9 : ℕ)

/-- Concrete request randomness: unit noise, fixed key payload. -/
def rndTiny : ReqRnd := { e := fun _ => -1, km := fun t => (t + 2 : ℕ) }

/-- Concrete Hint Engine evaluation noise. -/
def hnTiny : ℕ → ℕ → ℤ := fun _ _ => 1

/-- Concrete unpreprocessed server over the small database. -/
def svTinyU : Server := Server.CreateWithDatabase pTiny dbTiny

/-- Concrete preprocessed server over the small database. -/
def svTinyPre : Server := serverPre pTiny dbTiny aTiny

/-- The preprocessed small server after entering `serving`. -/
def svTinyServ : Server := { serverPre pTiny dbTiny aTiny with status := ServerStatus.serving }

/-- A well-shaped concrete request for the small parameter set. -/
def reqFlat : Request := { b := [0, 0], encS := { payload := [0] }, keyMaterial := none }

/-- The concrete response of the small server to `reqFlat`. -/
def respTinyFlat : Response :=
  respOf pTiny dbTiny (computePublicParams pTiny dbTiny aTiny) reqFlat hnTiny

/-- A database whose record count does not match `pTiny`. -/
def dbBad : Database := { params := pTiny, records := [[1, 2]] }

/-- A server whose preprocessing fails on the shape mismatch. -/
def svBad : Server := Server.CreateWithDatabase pTiny dbBad

/-- A concrete operation sequence attempted against a server. -/
def opsBad : List ServerOp :=
  [ServerOp.preprocessOp aTiny, ServerOp.handleOp reqFlat hnTiny, ServerOp.getParamsOp]

/-- Concrete fresh client over the small public parameters. -/
def clientTiny : Client := clientInit pTiny dbTiny aTiny sTiny

/-- A concrete three-query session. -/
def qsTiny : List (ℕ × ReqRnd) := [(0, rndTiny), (1, rndTiny), (2, rndTiny)]

/-- Fallback request value for indexed access. -/
def reqDefault : Request := { b := [], encS := { payload := [] }, keyMaterial := none }

/-- The concrete requests produced by the three-query session. -/
def reqsTiny : List Request :=
  match sessionRequests clientTiny qsTiny with
  | .ok l => l
  | .error _ => []

/-- Reading an index below the length out of a tabulated list recovers
the tabulating function. -/
lemma getD_range_map {α : Type} (d : α) (n : ℕ) (f : ℕ → α) (j : ℕ) (h : j < n) :
    ((List.range n).map f).getD j d = f j := by
  rw [List.getD_eq_getElem?_getD, List.getElem?_map, List.getElem?_range h]
  rfl

/-- A list agreeing with a tabulating function at every index equals the
tabulation. -/
lemma list_eq_of_getD (l : List ℕ) (k : ℕ) (f : ℕ → ℕ) (hlen : l.length = k)
    (h : ∀ m, m < k → f m = l.getD m 0) : (List.range k).map f = l := by
  induction l generalizing k f with
  | nil =>
    subst hlen
    rfl
  | cons x xs ih =>
    subst hlen
    rw [List.length_cons, List.range_succ_eq_map, List.map_cons, List.map_map]
    have h0 : f 0 = x := h 0 (Nat.succ_pos _)
    rw [h0]
    have htail : (List.range xs.length).map (f ∘ Nat.succ) = xs := by
      apply ih _ _ rfl
      intro m hm
      exact h (m + 1) (Nat.succ_lt_succ hm)
    rw [htail]

/-- Congruence of finite sums modulo `n`. -/
lemma sum_modEq (n : ℤ) (s : Finset ℕ) (f g : ℕ → ℤ)
    (h : ∀ j ∈ s, Int.ModEq n (f j) (g j)) :
    Int.ModEq n (s.sum f) (s.sum g) := by
  induction s using Finset.induction_on with
  | empty => rfl
  | insert hmem ih =>
    rw [Finset.sum_insert hmem, Finset.sum_insert hmem]
    exact (h _ (Finset.mem_insert_self _ _)).add
      (ih fun j hj => h j (Finset.mem_insert_of_mem hj))

/-- Congruence of inner products modulo `n` in the second argument. -/
lemma dotc_modEq_right (n : ℤ) (k : ℕ) (d u v : ℕ → ℤ)
    (h : ∀ j, j < k → Int.ModEq n (u j) (v j)) :
    Int.ModEq n (dotc k d u) (dotc k d v) := by
  apply sum_modEq
  intro j hj
  exact (h j (Finset.mem_range.mp hj)).mul_left (d j)

/-- Exchange of the summation order in a vector-matrix-vector product. -/
lemma dotc_swap (a b : ℕ) (d : ℕ → ℤ) (A : ℕ → ℕ → ℤ) (s : ℕ → ℤ) :
    dotc a d (fun j => dotc b (fun k => A j k) s)
      = dotc b (fun k => dotc a d fun j => A j k) s := by
  unfold dotc
  simp_rw [Finset.mul_sum, Finset.sum_mul]
  rw [Finset.sum_comm]
  simp_rw [mul_assoc]

/-- An inner product against a one-hot vector selects one coordinate. -/
lemma dotc_oneHot (k : ℕ) (d : ℕ → ℤ) (c : ℤ) (sel : ℕ) (hsel : sel < k) :
    dotc k d (fun j => c * oneHotZ sel j) = d sel * c := by
  unfold dotc oneHotZ
  have h1 : ∀ j ∈ Finset.range k,
      d j * (c * if j = sel then 1 else 0) = if j = sel then d j * c else 0 := by
    intro j _
    by_cases hj : j = sel <;> simp [hj]
  rw [Finset.sum_congr rfl h1, Finset.sum_ite_eq' (Finset.range k) sel fun j => d j * c,
    if_pos (Finset.mem_range.mpr hsel)]

/-- Magnitude bound for an inner product with entrywise bounds. -/
lemma dotc_abs_le (k : ℕ) (u v : ℕ → ℤ) (U B : ℕ)
    (hu : ∀ j, j < k → (u j).natAbs ≤ U) (hv : ∀ j, j < k → (v j).natAbs ≤ B) :
    (dotc k u v).natAbs ≤ k * (U * B) := by
  have habs : |dotc k u v| ≤ (k : ℤ) * ((U : ℤ) * B) := by
    calc |dotc k u v| ≤ (Finset.range k).sum fun j => |u j * v j| :=
          Finset.abs_sum_le_sum_abs _ _
      _ ≤ (Finset.range k).sum fun _ => (U : ℤ) * B := by
          apply Finset.sum_le_sum
          intro j hj
          have hj1 := Finset.mem_range.mp hj
          rw [abs_mul]
          have h1 : |u j| ≤ (U : ℤ) := by
            rw [Int.abs_eq_natAbs]
            exact_mod_cast hu j hj1
          have h2 : |v j| ≤ (B : ℤ) := by
            rw [Int.abs_eq_natAbs]
            exact_mod_cast hv j hj1
          exact mul_le_mul h1 h2 (abs_nonneg _) (by positivity)
      _ = (k : ℤ) * ((U : ℤ) * B) := by
          rw [Finset.sum_const, Finset.card_range]
          simp
  have h2 : ((dotc k u v).natAbs : ℤ) ≤ ((k * (U * B) : ℕ) : ℤ) := by
    rw [← Int.abs_eq_natAbs]
    push_cast
    exact habs
  exact_mod_cast h2

/-- Correctness of the noise-rounding decode: a value congruent to the
scaled plaintext plus a noise of magnitude under half the scaling factor
rounds back to the plaintext. -/
lemma decode_round (D P dv q : ℕ) (E : ℤ) (hD : 0 < D) (v : ℕ) (hv : v < P)
    (hdv : dv = D * v) (hq : q = D * P) (hE : 2 * E.natAbs < D) :
    ((((dv : ℤ) + E) % (q : ℤ)).toNat + D / 2) / D % P = v := by
  have h1 : dv + D ≤ q := by
    subst hdv
    subst hq
    calc D * v + D = D * (v + 1) := by ring
      _ ≤ D * P := Nat.mul_le_mul (le_refl D) hv
  rcases le_or_lt 0 E with hpos | hneg
  · have e1 : (0 : ℤ) ≤ (dv : ℤ) + E := by omega
    have e2 : (dv : ℤ) + E < (q : ℤ) := by omega
    rw [Int.emod_eq_of_lt e1 e2]
    have e3 : ((dv : ℤ) + E).toNat = dv + E.toNat := by omega
    rw [e3]
    have e4 : E.toNat + D / 2 < D := by omega
    have e5 : (dv + E.toNat + D / 2) / D = v := by
      subst hdv
      rw [Nat.add_assoc, Nat.mul_add_div hD, Nat.div_eq_of_lt e4]
      omega
    rw [e5, Nat.mod_eq_of_lt hv]
  · rcases Nat.eq_zero_or_pos v with v0 | vpos
    · subst v0
      have hdv0 : dv = 0 := by simpa using hdv
      subst hdv0
      have em0 : (E + (q : ℤ) * 1) % (q : ℤ) = E % (q : ℤ) :=
        Int.add_mul_emod_self_left E (q : ℤ) 1
      rw [mul_one] at em0
      have em1 : (E + (q : ℤ)) % (q : ℤ) = E + (q : ℤ) := by
        apply Int.emod_eq_of_lt <;> omega
      have em : ((0 : ℕ) : ℤ) + E = E := by omega
      rw [em, ← em0, em1]
      have t1 : (E + (q : ℤ)).toNat = q - E.natAbs := by omega
      rw [t1]
      have hb1 : P * D ≤ q - E.natAbs + D / 2 := by
        rw [Nat.mul_comm, ← hq]
        omega
      have hb2 : q - E.natAbs + D / 2 < (P + 1) * D := by
        have h2 : (P + 1) * D = q + D := by
          rw [hq]
          ring
        omega
      rw [Nat.div_eq_of_lt_le hb1 hb2, Nat.mod_self]
    · have hDdv : D ≤ dv := by
        subst hdv
        calc D = D * 1 := by ring
          _ ≤ D * v := Nat.mul_le_mul (le_refl D) vpos
      have e1 : (0 : ℤ) ≤ (dv : ℤ) + E := by omega
      have e2 : (dv : ℤ) + E < (q : ℤ) := by omega
      rw [Int.emod_eq_of_lt e1 e2]
      have t1 : ((dv : ℤ) + E).toNat = dv - E.natAbs := by omega
      rw [t1]
      have hb1 : v * D ≤ dv - E.natAbs + D / 2 := by
        rw [Nat.mul_comm v D, ← hdv]
        omega
      have hb2 : dv - E.natAbs + D / 2 < (v + 1) * D := by
        have h2 : (v + 1) * D = dv + D := by
          rw [hdv]
          ring
        omega
      rw [Nat.div_eq_of_lt_le hb1 hb2, Nat.mod_eq_of_lt hv]

/-- Congruence of inner products modulo `n` in the first argument. -/
lemma dotc_modEq_left (n : ℤ) (k : ℕ) (u v d : ℕ → ℤ)
    (h : ∀ j, j < k → Int.ModEq n (u j) (v j)) :
    Int.ModEq n (dotc k u d) (dotc k v d) := by
  apply sum_modEq
  intro j hj
  exact (h j (Finset.mem_range.mp hj)).mul_right (d j)

/-- Extensionality of inner products in the second argument. -/
lemma dotc_congr_right (k : ℕ) (d u v : ℕ → ℤ) (h : ∀ j, j < k → u j = v j) :
    dotc k d u = dotc k d v := by
  apply Finset.sum_congr rfl
  intro j hj
  rw [h j (Finset.mem_range.mp hj)]

/-- Unpacking of a successful Parameter Set validation. -/
lemma paramsOk_spec (p : Parameters) (capacity : ℕ) (h : paramsOk p capacity = true) :
    capacity ≤ p.db_rows * p.db_cols ∧
    p.lwe_plaintext_bit_size ≤ p.lwe_modulus_bit_size ∧
    2 * (p.db_cols * plainModulus p * p.lwe_error_variance
      + p.linpir_params.error_variance) < delta p ∧
    p.linpir_params.qs.length ≠ 0 := by
  simp only [paramsOk, Bool.and_eq_true, decide_eq_true_eq] at h
  tauto

/-- Unpacking of database well-formedness into indexed facts. -/
lemma dbOk_spec (p : Parameters) (db : Database) (h : dbOk p db = true) :
    db.params = p ∧ db.records.length = numRecords p ∧
    ∀ idx, idx < numRecords p →
      (db.records.getD idx []).length = slotsPerRecord p ∧
      ∀ m, m < slotsPerRecord p →
        (db.records.getD idx []).getD m 0 < 2 ^ slotBitSize p m := by
  simp only [dbOk, Bool.and_eq_true, decide_eq_true_eq, List.all_eq_true] at h
  obtain ⟨⟨h1, h2⟩, h3⟩ := h
  refine ⟨h1, h2, ?_⟩
  intro idx hidx
  have hlt : idx < db.records.length := by omega
  have hmem : db.records.getD idx [] ∈ db.records := by
    rw [List.getD_eq_getElem?_getD, List.getElem?_eq_getElem hlt]
    exact List.getElem_mem hlt
  have h4 := h3 _ hmem
  simp only [Bool.and_eq_true, decide_eq_true_eq, List.all_eq_true, List.mem_range] at h4
  exact ⟨h4.1, fun m hm => h4.2 m hm⟩

/-- Preprocessing a fresh server over a well-formed database succeeds
and installs the computed public parameters. -/
lemma preprocess_eq (p : Parameters) (db : Database) (aRnd : ℕ → ℕ → ℤ)
    (hdb : dbOk p db = true) :
    (Server.CreateWithDatabase p db).Preprocess aRnd = .ok (serverPre p db aRnd) := by
  unfold Server.Preprocess Server.CreateWithDatabase serverPre
  simp only [hdb, if_true]

/-- The preprocessed server exports its public parameters. -/
lemma getPP_eq (p : Parameters) (db : Database) (aRnd : ℕ → ℕ → ℤ) :
    (serverPre p db aRnd).GetPublicParams = .ok (computePublicParams p db aRnd) := rfl

/-- Client creation against the matching public parameters succeeds. -/
lemma create_eq (p : Parameters) (db : Database) (aRnd : ℕ → ℕ → ℤ) (s : ℕ → ℤ) :
    Client.Create p (computePublicParams p db aRnd) s = .ok (clientInit p db aRnd s) := by
  unfold Client.Create clientInit
  have hc : (computePublicParams p db aRnd).params = p := rfl
  rw [if_pos hc]

/-- A fresh client's `GenerateRequest` on a valid index produces the
concrete request and caches key material and the pending index. -/
lemma genReq_eq (p : Parameters) (db : Database) (aRnd : ℕ → ℕ → ℤ) (s : ℕ → ℤ)
    (rnd : ReqRnd) (i : ℕ) (hi : i < numRecords p) :
    (clientInit p db aRnd s).GenerateRequest i rnd
      = .ok (reqOf p (computePublicParams p db aRnd) s rnd i,
             clientAfter p db aRnd s rnd i) := by
  unfold Client.GenerateRequest clientInit reqOf clientAfter
  rw [if_pos hi]

/-- The preprocessed server answers a well-shaped request with the
concrete response and moves to `serving`. -/
lemma handle_eq (p : Parameters) (db : Database) (aRnd : ℕ → ℕ → ℤ) (req : Request)
    (hn : ℕ → ℕ → ℤ) (hb : req.b.length = p.db_cols)
    (hs : req.encS.payload.length = p.lwe_secret_dim) :
    (serverPre p db aRnd).HandleRequest req hn
      = .ok (respOf p db (computePublicParams p db aRnd) req hn,
             { serverPre p db aRnd with status := ServerStatus.serving }) := by
  unfold Server.HandleRequest serverPre respOf
  dsimp only
  rw [if_pos ⟨hb, hs⟩]

/-- A value reduced modulo `n` is congruent to itself modulo `n`. -/
lemma emod_selfModEq (a n : ℤ) : Int.ModEq n (a % n) a :=
  Int.emod_emod_of_dvd a dvd_rfl

/-- Extensionality of inner products in the first argument. -/
lemma dotc_congr_left (k : ℕ) (u v d : ℕ → ℤ) (h : ∀ j, j < k → u j = v j) :
    dotc k u d = dotc k v d := by
  apply Finset.sum_congr rfl
  intro j hj
  rw [h j (Finset.mem_range.mp hj)]

/-- The scaling factor times the plaintext modulus is the ciphertext
modulus. -/
lemma delta_mul_plain (p : Parameters)
    (hpt : p.lwe_plaintext_bit_size ≤ p.lwe_modulus_bit_size) :
    delta p * plainModulus p = lweModulus p := by
  unfold delta plainModulus lweModulus
  rw [← pow_add, Nat.sub_add_cancel hpt]

/-- Decoding one slot of the server's response to the pipeline's request
recovers that slot of the queried record exactly. -/
lemma decode_correct (p : Parameters) (db : Database) (aRnd : ℕ → ℕ → ℤ) (s : ℕ → ℤ)
    (rnd : ReqRnd) (hn : ℕ → ℕ → ℤ) (i m : ℕ)
    (hp : paramsOk p (numRecords p) = true) (hdb : dbOk p db = true)
    (hi : i < numRecords p) (he : errBounded p rnd.e) (hh : hintNoiseBounded p hn)
    (hm : m < slotsPerRecord p) :
    decodeSlot p
      (respOf p db (computePublicParams p db aRnd)
        (reqOf p (computePublicParams p db aRnd) s rnd i) hn) m (i % p.db_rows)
      = (db.records.getD i []).getD m 0 := by
  obtain ⟨-, hpt, hnoise, -⟩ := paramsOk_spec p _ hp
  obtain ⟨-, hdblen, hdbrec⟩ := dbOk_spec p db hdb
  have hN : 0 < numRecords p := by omega
  have hrows : 0 < p.db_rows := by
    rcases Nat.eq_zero_or_pos p.db_rows with h0 | hpos
    · exfalso
      unfold numRecords at hN
      rw [h0] at hN
      simp at hN
    · exact hpos
  have hcols : 0 < p.db_cols := by
    rcases Nat.eq_zero_or_pos p.db_cols with h0 | hpos
    · exfalso
      unfold numRecords at hN
      rw [h0] at hN
      simp at hN
    · exact hpos
  have hr : i % p.db_rows < p.db_rows := Nat.mod_lt i hrows
  have hsel : i / p.db_rows < p.db_cols := by
    apply Nat.div_lt_of_lt_mul
    unfold numRecords at hi
    exact hi
  have hDP : delta p * plainModulus p = lweModulus p := delta_mul_plain p hpt
  have hD : 0 < delta p := pow_pos (by omega) _
  have hP : 0 < plainModulus p := pow_pos (by omega) _
  have hv : (db.records.getD i []).getD m 0 < plainModulus p := by
    have h1 := (hdbrec i hi).2 m hm
    have h2 : 2 ^ slotBitSize p m ≤ plainModulus p := by
      unfold slotBitSize plainModulus
      exact Nat.pow_le_pow_right (by omega) (min_le_left _ _)
    omega
  have haval : ((respOf p db (computePublicParams p db aRnd)
        (reqOf p (computePublicParams p db aRnd) s rnd i) hn).ct_records.getD m []).getD
        (i % p.db_rows) 0
      = dotc p.db_cols (fun j => dbMatrix p db m (i % p.db_rows) j)
          (fun j => (reqOf p (computePublicParams p db aRnd) s rnd i).b.getD j 0)
          % ((lweModulus p : ℕ) : ℤ) := by
    unfold respOf
    dsimp only
    rw [getD_range_map ([] : List ℤ) (slotsPerRecord p) _ m hm,
      getD_range_map (0 : ℤ) p.db_rows _ (i % p.db_rows) hr]
  have hhval : ((respOf p db (computePublicParams p db aRnd)
        (reqOf p (computePublicParams p db aRnd) s rnd i) hn).linpir_responses.getD m []).getD
        (i % p.db_rows) 0
      = (dotc p.lwe_secret_dim
            (fun k => hintEntry (computePublicParams p db aRnd) m (i % p.db_rows) k)
            (fun k => (reqOf p (computePublicParams p db aRnd) s rnd i).encS.payload.getD k 0)
          + hn m (i % p.db_rows)) % ((lweModulus p : ℕ) : ℤ) := by
    unfold respOf
    dsimp only
    rw [getD_range_map ([] : List ℤ) (slotsPerRecord p) _ m hm,
      getD_range_map (0 : ℤ) p.db_rows _ (i % p.db_rows) hr]
  have hbval : ∀ j, j < p.db_cols →
      (reqOf p (computePublicParams p db aRnd) s rnd i).b.getD j 0
        = (dotc p.lwe_secret_dim (fun k => aEntry (computePublicParams p db aRnd) j k) s
            + rnd.e j
            + ((delta p : ℕ) : ℤ) * oneHotZ (i / p.db_rows) j) % ((lweModulus p : ℕ) : ℤ) := by
    intro j hj
    unfold reqOf
    dsimp only
    rw [getD_range_map (0 : ℤ) p.db_cols _ j hj]
  have hsval : ∀ k, k < p.lwe_secret_dim →
      (reqOf p (computePublicParams p db aRnd) s rnd i).encS.payload.getD k 0 = s k := by
    intro k hk
    unfold reqOf
    dsimp only
    rw [getD_range_map (0 : ℤ) p.lwe_secret_dim _ k hk]
  have hAval : ∀ j k, j < p.db_cols → k < p.lwe_secret_dim →
      aEntry (computePublicParams p db aRnd) j k = aRnd j k % ((lweModulus p : ℕ) : ℤ) := by
    intro j k hj hk
    unfold aEntry computePublicParams
    dsimp only
    rw [getD_range_map ([] : List ℤ) p.db_cols _ j hj,
      getD_range_map (0 : ℤ) p.lwe_secret_dim _ k hk]
  have hHval : ∀ k, k < p.lwe_secret_dim →
      hintEntry (computePublicParams p db aRnd) m (i % p.db_rows) k
        = dotc p.db_cols (fun j => dbMatrix p db m (i % p.db_rows) j)
            (fun j => aRnd j k % ((lweModulus p : ℕ) : ℤ)) % ((lweModulus p : ℕ) : ℤ) := by
    intro k hk
    unfold hintEntry computePublicParams
    dsimp only
    rw [getD_range_map ([] : List (List ℤ)) (slotsPerRecord p) _ m hm,
      getD_range_map ([] : List ℤ) p.db_rows _ (i % p.db_rows) hr,
      getD_range_map (0 : ℤ) p.lwe_secret_dim _ k hk]
  -- the primary answer is congruent to the unreduced inner product
  have step1 : dotc p.db_cols (fun j => dbMatrix p db m (i % p.db_rows) j)
        (fun j => (reqOf p (computePublicParams p db aRnd) s rnd i).b.getD j 0)
      = dotc p.db_cols (fun j => dbMatrix p db m (i % p.db_rows) j)
        (fun j => (dotc p.lwe_secret_dim (fun k => aEntry (computePublicParams p db aRnd) j k) s
            + rnd.e j
            + ((delta p : ℕ) : ℤ) * oneHotZ (i / p.db_rows) j) % ((lweModulus p : ℕ) : ℤ)) :=
    dotc_congr_right _ _ _ _ hbval
  have step2 : Int.ModEq ((lweModulus p : ℕ) : ℤ)
      (dotc p.db_cols (fun j => dbMatrix p db m (i % p.db_rows) j)
        (fun j => (dotc p.lwe_secret_dim (fun k => aEntry (computePublicParams p db aRnd) j k) s
            + rnd.e j
            + ((delta p : ℕ) : ℤ) * oneHotZ (i / p.db_rows) j) % ((lweModulus p : ℕ) : ℤ)))
      (dotc p.db_cols (fun j => dbMatrix p db m (i % p.db_rows) j)
        (fun j => dotc p.lwe_secret_dim (fun k => aEntry (computePublicParams p db aRnd) j k) s
            + rnd.e j
            + ((delta p : ℕ) : ℤ) * oneHotZ (i / p.db_rows) j)) :=
    dotc_modEq_right _ _ _ _ _ (fun j _ => Int.emod_emod_of_dvd _ dvd_rfl)
  have step3 : dotc p.db_cols (fun j => dbMatrix p db m (i % p.db_rows) j)
        (fun j => dotc p.lwe_secret_dim (fun k => aEntry (computePublicParams p db aRnd) j k) s
            + rnd.e j
            + ((delta p : ℕ) : ℤ) * oneHotZ (i / p.db_rows) j)
      = dotc p.db_cols (fun j => dbMatrix p db m (i % p.db_rows) j)
          (fun j => dotc p.lwe_secret_dim (fun k => aEntry (computePublicParams p db aRnd) j k) s)
        + dotc p.db_cols (fun j => dbMatrix p db m (i % p.db_rows) j) rnd.e
        + dotc p.db_cols (fun j => dbMatrix p db m (i % p.db_rows) j)
            (fun j => ((delta p : ℕ) : ℤ) * oneHotZ (i / p.db_rows) j) := by
    unfold dotc
    simp only [mul_add]
    rw [Finset.sum_add_distrib, Finset.sum_add_distrib]
  have step4 : dotc p.db_cols (fun j => dbMatrix p db m (i % p.db_rows) j)
        (fun j => dotc p.lwe_secret_dim (fun k => aEntry (computePublicParams p db aRnd) j k) s)
      = dotc p.db_cols (fun j => dbMatrix p db m (i % p.db_rows) j)
        (fun j => dotc p.lwe_secret_dim (fun k => aRnd j k % ((lweModulus p : ℕ) : ℤ)) s) :=
    dotc_congr_right _ _ _ _ (fun j hj =>
      dotc_congr_left _ _ _ _ (fun k hk => hAval j k hj hk))
  have step5 : dotc p.db_cols (fun j => dbMatrix p db m (i % p.db_rows) j)
        (fun j => dotc p.lwe_secret_dim (fun k => aRnd j k % ((lweModulus p : ℕ) : ℤ)) s)
      = dotc p.lwe_secret_dim
          (fun k => dotc p.db_cols (fun j => dbMatrix p db m (i % p.db_rows) j)
            (fun j => aRnd j k % ((lweModulus p : ℕ) : ℤ))) s :=
    dotc_swap p.db_cols p.lwe_secret_dim _ _ s
  have step7 : dotc p.db_cols (fun j => dbMatrix p db m (i % p.db_rows) j)
        (fun j => ((delta p : ℕ) : ℤ) * oneHotZ (i / p.db_rows) j)
      = dbMatrix p db m (i % p.db_rows) (i / p.db_rows) * ((delta p : ℕ) : ℤ) :=
    dotc_oneHot p.db_cols _ _ _ hsel
  have hidx : i / p.db_rows * p.db_rows + i % p.db_rows = i := by
    rw [Nat.mul_comm]
    exact Nat.div_add_mod i p.db_rows
  have hDmsel : dbMatrix p db m (i % p.db_rows) (i / p.db_rows)
      = (((db.records.getD i []).getD m 0 : ℕ) : ℤ) := by
    unfold dbMatrix
    rw [hidx]
  -- the hint correction is congruent to the swapped first summand
  have hside1 : dotc p.lwe_secret_dim
        (fun k => hintEntry (computePublicParams p db aRnd) m (i % p.db_rows) k)
        (fun k => (reqOf p (computePublicParams p db aRnd) s rnd i).encS.payload.getD k 0)
      = dotc p.lwe_secret_dim
        (fun k => dotc p.db_cols (fun j => dbMatrix p db m (i % p.db_rows) j)
            (fun j => aRnd j k % ((lweModulus p : ℕ) : ℤ)) % ((lweModulus p : ℕ) : ℤ)) s := by
    rw [dotc_congr_right _ _ _ _ hsval]
    exact dotc_congr_left _ _ _ _ hHval
  have hside2 : Int.ModEq ((lweModulus p : ℕ) : ℤ)
      (dotc p.lwe_secret_dim
        (fun k => dotc p.db_cols (fun j => dbMatrix p db m (i % p.db_rows) j)
            (fun j => aRnd j k % ((lweModulus p : ℕ) : ℤ)) % ((lweModulus p : ℕ) : ℤ)) s)
      (dotc p.lwe_secret_dim
        (fun k => dotc p.db_cols (fun j => dbMatrix p db m (i % p.db_rows) j)
            (fun j => aRnd j k % ((lweModulus p : ℕ) : ℤ))) s) :=
    dotc_modEq_left _ _ _ _ _ (fun k _ => Int.emod_emod_of_dvd _ dvd_rfl)
  -- noise bound
  have hDmBound : ∀ j, j < p.db_cols →
      ((fun j => dbMatrix p db m (i % p.db_rows) j) j).natAbs ≤ plainModulus p := by
    intro j hj
    have hidx2 : j * p.db_rows + i % p.db_rows < numRecords p := by
      unfold numRecords
      calc j * p.db_rows + i % p.db_rows < j * p.db_rows + p.db_rows := by omega
        _ = (j + 1) * p.db_rows := by ring
        _ ≤ p.db_cols * p.db_rows := Nat.mul_le_mul (by omega) (le_refl _)
        _ = p.db_rows * p.db_cols := Nat.mul_comm _ _
    have h1 := (hdbrec _ hidx2).2 m hm
    have h2 : 2 ^ slotBitSize p m ≤ plainModulus p := by
      unfold slotBitSize plainModulus
      exact Nat.pow_le_pow_right (by omega) (min_le_left _ _)
    unfold dbMatrix
    rw [Int.natAbs_ofNat]
    omega
  have hdotE : (dotc p.db_cols (fun j => dbMatrix p db m (i % p.db_rows) j) rnd.e).natAbs
      ≤ p.db_cols * (plainModulus p * p.lwe_error_variance) :=
    dotc_abs_le p.db_cols _ rnd.e (plainModulus p) p.lwe_error_variance hDmBound he
  have hhnB : (hn m (i % p.db_rows)).natAbs ≤ p.linpir_params.error_variance := hh m hm _ hr
  have hE : 2 * (dotc p.db_cols (fun j => dbMatrix p db m (i % p.db_rows) j) rnd.e
        - hn m (i % p.db_rows)).natAbs < delta p := by
    have h3 := Int.natAbs_sub_le
      (dotc p.db_cols (fun j => dbMatrix p db m (i % p.db_rows) j) rnd.e)
      (hn m (i % p.db_rows))
    have hassoc : p.db_cols * (plainModulus p * p.lwe_error_variance)
        = p.db_cols * plainModulus p * p.lwe_error_variance := (Nat.mul_assoc _ _ _).symm
    omega
  -- assemble the congruence
  have key : Int.ModEq ((lweModulus p : ℕ) : ℤ)
      (dotc p.db_cols (fun j => dbMatrix p db m (i % p.db_rows) j)
          (fun j => (reqOf p (computePublicParams p db aRnd) s rnd i).b.getD j 0)
        - (dotc p.lwe_secret_dim
            (fun k => hintEntry (computePublicParams p db aRnd) m (i % p.db_rows) k)
            (fun k => (reqOf p (computePublicParams p db aRnd) s rnd i).encS.payload.getD k 0)
          + hn m (i % p.db_rows)))
      (((delta p * (db.records.getD i []).getD m 0 : ℕ) : ℤ)
        + (dotc p.db_cols (fun j => dbMatrix p db m (i % p.db_rows) j) rnd.e
          - hn m (i % p.db_rows))) := by
    have hleft : Int.ModEq ((lweModulus p : ℕ) : ℤ)
        (dotc p.db_cols (fun j => dbMatrix p db m (i % p.db_rows) j)
          (fun j => (reqOf p (computePublicParams p db aRnd) s rnd i).b.getD j 0))
        (dotc p.lwe_secret_dim
            (fun k => dotc p.db_cols (fun j => dbMatrix p db m (i % p.db_rows) j)
              (fun j => aRnd j k % ((lweModulus p : ℕ) : ℤ))) s
          + dotc p.db_cols (fun j => dbMatrix p db m (i % p.db_rows) j) rnd.e
          + (((db.records.getD i []).getD m 0 : ℕ) : ℤ) * ((delta p : ℕ) : ℤ)) := by
      rw [step1]
      refine step2.trans ?_
      rw [step3, step4, step5, step7, hDmsel]
    have hright : Int.ModEq ((lweModulus p : ℕ) : ℤ)
        (dotc p.lwe_secret_dim
            (fun k => hintEntry (computePublicParams p db aRnd) m (i % p.db_rows) k)
            (fun k => (reqOf p (computePublicParams p db aRnd) s rnd i).encS.payload.getD k 0)
          + hn m (i % p.db_rows))
        (dotc p.lwe_secret_dim
            (fun k => dotc p.db_cols (fun j => dbMatrix p db m (i % p.db_rows) j)
              (fun j => aRnd j k % ((lweModulus p : ℕ) : ℤ))) s
          + hn m (i % p.db_rows)) := by
      rw [hside1]
      exact hside2.add_right _
    refine (hleft.sub hright).trans ?_
    have harith :
        dotc p.lwe_secret_dim
            (fun k => dotc p.db_cols (fun j => dbMatrix p db m (i % p.db_rows) j)
              (fun j => aRnd j k % ((lweModulus p : ℕ) : ℤ))) s
          + dotc p.db_cols (fun j => dbMatrix p db m (i % p.db_rows) j) rnd.e
          + (((db.records.getD i []).getD m 0 : ℕ) : ℤ) * ((delta p : ℕ) : ℤ)
          - (dotc p.lwe_secret_dim
              (fun k => dotc p.db_cols (fun j => dbMatrix p db m (i % p.db_rows) j)
                (fun j => aRnd j k % ((lweModulus p : ℕ) : ℤ))) s
            + hn m (i % p.db_rows))
        = ((delta p * (db.records.getD i []).getD m 0 : ℕ) : ℤ)
          + (dotc p.db_cols (fun j => dbMatrix p db m (i % p.db_rows) j) rnd.e
            - hn m (i % p.db_rows)) := by
      push_cast
      ring
    rw [harith]
  -- conclude via the rounding lemma
  unfold decodeSlot
  dsimp only
  rw [haval, hhval]
  have hfinal : (dotc p.db_cols (fun j => dbMatrix p db m (i % p.db_rows) j)
          (fun j => (reqOf p (computePublicParams p db aRnd) s rnd i).b.getD j 0)
          % ((lweModulus p : ℕ) : ℤ)
        - (dotc p.lwe_secret_dim
            (fun k => hintEntry (computePublicParams p db aRnd) m (i % p.db_rows) k)
            (fun k => (reqOf p (computePublicParams p db aRnd) s rnd i).encS.payload.getD k 0)
          + hn m (i % p.db_rows)) % ((lweModulus p : ℕ) : ℤ)) % ((lweModulus p : ℕ) : ℤ)
      = (((delta p * (db.records.getD i []).getD m 0 : ℕ) : ℤ)
          + (dotc p.db_cols (fun j => dbMatrix p db m (i % p.db_rows) j) rnd.e
            - hn m (i % p.db_rows))) % ((lweModulus p : ℕ) : ℤ) := by
    have hred : Int.ModEq ((lweModulus p : ℕ) : ℤ)
        (dotc p.db_cols (fun j => dbMatrix p db m (i % p.db_rows) j)
            (fun j => (reqOf p (computePublicParams p db aRnd) s rnd i).b.getD j 0)
            % ((lweModulus p : ℕ) : ℤ)
          - (dotc p.lwe_secret_dim
              (fun k => hintEntry (computePublicParams p db aRnd) m (i % p.db_rows) k)
              (fun k => (reqOf p (computePublicParams p db aRnd) s rnd i).encS.payload.getD k 0)
            + hn m (i % p.db_rows)) % ((lweModulus p : ℕ) : ℤ))
        (dotc p.db_cols (fun j => dbMatrix p db m (i % p.db_rows) j)
            (fun j => (reqOf p (computePublicParams p db aRnd) s rnd i).b.getD j 0)
          - (dotc p.lwe_secret_dim
              (fun k => hintEntry (computePublicParams p db aRnd) m (i % p.db_rows) k)
              (fun k => (reqOf p (computePublicParams p db aRnd) s rnd i).encS.payload.getD k 0)
            + hn m (i % p.db_rows))) :=
      (emod_selfModEq _ _).sub (emod_selfModEq _ _)
    exact hred.trans key
  rw [hfinal]
  exact decode_round (delta p) (plainModulus p)
    (delta p * (db.records.getD i []).getD m 0) (lweModulus p)
    (dotc p.db_cols (fun j => dbMatrix p db m (i % p.db_rows) j) rnd.e
      - hn m (i % p.db_rows))
    hD ((db.records.getD i []).getD m 0) hv rfl hDP.symm hE

/-- Reduction of `Except.bind` on a success value. -/
lemma except_bind_ok {α β γ : Type} (x : β) (f : β → Except α γ) :
    Except.bind (Except.ok x) f = f x := rfl

/-- The shape of the pipeline request: query vector of column length. -/
lemma reqOf_b_length (p : Parameters) (pp : PublicParams) (s : ℕ → ℤ) (rnd : ReqRnd)
    (i : ℕ) : (reqOf p pp s rnd i).b.length = p.db_cols := by
  unfold reqOf
  rw [List.length_map, List.length_range]

/-- The shape of the pipeline request: encrypted secret of the secret
dimension. -/
lemma reqOf_encS_length (p : Parameters) (pp : PublicParams) (s : ℕ → ℤ) (rnd : ReqRnd)
    (i : ℕ) : (reqOf p pp s rnd i).encS.payload.length = p.lwe_secret_dim := by
  unfold reqOf
  rw [List.length_map, List.length_range]

/-- Recovering from the pipeline response yields the queried record. -/
lemma recover_eq (p : Parameters) (db : Database) (aRnd : ℕ → ℕ → ℤ) (s : ℕ → ℤ)
    (rnd : ReqRnd) (hn : ℕ → ℕ → ℤ) (i : ℕ)
    (hp : paramsOk p (numRecords p) = true) (hdb : dbOk p db = true)
    (hi : i < numRecords p) (he : errBounded p rnd.e) (hh : hintNoiseBounded p hn) :
    (clientAfter p db aRnd s rnd i).RecoverRecord
      (respOf p db (computePublicParams p db aRnd)
        (reqOf p (computePublicParams p db aRnd) s rnd i) hn)
      = .ok (db.records.getD i []) := by
  obtain ⟨-, hdblen, hdbrec⟩ := dbOk_spec p db hdb
  have hval : ∀ m, m < slotsPerRecord p →
      decodeSlot p (respOf p db (computePublicParams p db aRnd)
        (reqOf p (computePublicParams p db aRnd) s rnd i) hn) m (i % p.db_rows)
        = (db.records.getD i []).getD m 0 :=
    fun m hm => decode_correct p db aRnd s rnd hn i m hp hdb hi he hh hm
  unfold Client.RecoverRecord clientAfter
  dsimp only
  have hcheck : (List.range (slotsPerRecord p)).all
      (fun m => decide (((List.range (slotsPerRecord p)).map fun m1 =>
        decodeSlot p (respOf p db (computePublicParams p db aRnd)
          (reqOf p (computePublicParams p db aRnd) s rnd i) hn) m1 (i % p.db_rows)).getD m 0
        < 2 ^ slotBitSize p m)) = true := by
    rw [List.all_eq_true]
    intro m hmem
    have hm := List.mem_range.mp hmem
    rw [getD_range_map (0 : ℕ) (slotsPerRecord p) _ m hm, hval m hm]
    exact decide_eq_true ((hdbrec i hi).2 m hm)
  rw [if_pos hcheck]
  exact congrArg Except.ok
    (list_eq_of_getD (db.records.getD i []) (slotsPerRecord p) _
      (hdbrec i hi).1 (fun m hm => hval m hm))

/-- The spec's core correctness law, over the modelled engine: the full
round trip recovers exactly the queried record. -/
lemma roundTrip_correct (p : Parameters) (db : Database) (aRnd : ℕ → ℕ → ℤ)
    (s : ℕ → ℤ) (rnd : ReqRnd) (hn : ℕ → ℕ → ℤ) (i : ℕ)
    (hp : paramsOk p (numRecords p) = true) (hdb : dbOk p db = true)
    (hi : i < numRecords p) (he : errBounded p rnd.e) (hh : hintNoiseBounded p hn) :
    pirRoundTrip p db aRnd s rnd hn i = db.Record i := by
  obtain ⟨-, hdblen, -⟩ := dbOk_spec p db hdb
  unfold pirRoundTrip
  rw [preprocess_eq p db aRnd hdb]
  simp only [except_bind_ok]
  rw [getPP_eq]
  simp only [except_bind_ok]
  rw [create_eq]
  simp only [except_bind_ok]
  rw [genReq_eq p db aRnd s rnd i hi]
  simp only [except_bind_ok]
  rw [handle_eq p db aRnd (reqOf p (computePublicParams p db aRnd) s rnd i) hn
    (reqOf_b_length p _ s rnd i) (reqOf_encS_length p _ s rnd i)]
  simp only [except_bind_ok]
  rw [recover_eq p db aRnd s rnd hn i hp hdb hi he hh]
  unfold Database.Record Database.NumRecords
  rw [if_pos (show i < db.records.length by omega)]

/-- Reduction of `Except.map` on a success value. -/
lemma except_map_ok {α β γ : Type} (x : β) (f : β → γ) :
    Except.map f (Except.ok x : Except α β) = Except.ok (f x) := rfl

/-- Structure of a successful `GenerateRequest`: shapes of the produced
request, caching behaviour, and the presence of key material exactly on
a fresh session. -/
lemma genReq_spec (c : Client) (i : ℕ) (rnd : ReqRnd) (req : Request) (c1 : Client)
    (h : c.GenerateRequest i rnd = .ok (req, c1)) :
    req.b.length = c.params.db_cols ∧
    req.encS.payload.length = c.params.lwe_secret_dim ∧
    c1.params = c.params ∧
    c1.cachedKey.isSome = true ∧
    (req.keyMaterial.isSome = true ↔ c.cachedKey = none) ∧
    (∀ km, req.keyMaterial = some km → km.galois.length = kmLen c.params) := by
  unfold Client.GenerateRequest at h
  by_cases hi : i < numRecords c.params
  · rw [if_pos hi] at h
    rcases hck : c.cachedKey with - | k0
    · rw [hck] at h
      dsimp only at h
      simp only [Except.ok.injEq, Prod.mk.injEq] at h
      obtain ⟨hreq, hc1⟩ := h
      subst hreq
      subst hc1
      refine ⟨?_, ?_, rfl, rfl, ?_, ?_⟩
      · rw [List.length_map, List.length_range]
      · rw [List.length_map, List.length_range]
      · simp [hck]
      · intro km hkm
        simp only [Option.some.injEq] at hkm
        rw [← hkm]
        unfold genKeyMaterial
        rw [List.length_map, List.length_range]
    · rw [hck] at h
      dsimp only at h
      simp only [Except.ok.injEq, Prod.mk.injEq] at h
      obtain ⟨hreq, hc1⟩ := h
      subst hreq
      subst hc1
      refine ⟨?_, ?_, rfl, rfl, ?_, ?_⟩
      · rw [List.length_map, List.length_range]
      · rw [List.length_map, List.length_range]
      · simp [hck]
      · intro km hkm
        simp at hkm
  · rw [if_neg hi] at h
    exact absurd h (by simp)

/-- Per-request facts along a successful session: every request has the
configured shape, carries key material exactly when it is the first
request of a fresh session, and any key material has the configured
size. -/
lemma sessionRequests_spec (p : Parameters) :
    ∀ (qs : List (ℕ × ReqRnd)) (c : Client) (reqs : List Request),
      c.params = p → sessionRequests c qs = .ok reqs →
      ∀ k r, reqs[k]? = some r →
        r.b.length = p.db_cols ∧
        r.encS.payload.length = p.lwe_secret_dim ∧
        (r.keyMaterial.isSome = true ↔ (k = 0 ∧ c.cachedKey = none)) ∧
        (∀ km, r.keyMaterial = some km → km.galois.length = kmLen p) := by
  intro qs
  induction qs with
  | nil =>
    intro c reqs hcp hs k r hr
    unfold sessionRequests at hs
    simp only [Except.ok.injEq] at hs
    subst hs
    simp at hr
  | cons qr rest ih =>
    intro c reqs hcp hs k r hr
    unfold sessionRequests at hs
    cases hg : c.GenerateRequest qr.1 qr.2 with
    | error e =>
      rw [hg] at hs
      exact absurd hs (by simp [Except.bind])
    | ok rc =>
      rw [hg] at hs
      rw [except_bind_ok] at hs
      cases hrest : sessionRequests rc.2 rest with
      | error e =>
        rw [hrest] at hs
        exact absurd hs (by simp [Except.map])
      | ok reqs1 =>
        rw [hrest] at hs
        rw [except_map_ok] at hs
        simp only [Except.ok.injEq] at hs
        subst hs
        have hgs := genReq_spec c qr.1 qr.2 rc.1 rc.2 (by rw [hg])
        cases k with
        | zero =>
          simp only [List.getElem?_cons_zero, Option.some.injEq] at hr
          subst hr
          rw [hcp] at hgs
          refine ⟨hgs.1, hgs.2.1, ?_, hgs.2.2.2.2.2⟩
          rw [hgs.2.2.2.2.1]
          simp
        | succ k1 =>
          simp only [List.getElem?_cons_succ] at hr
          have hk := ih rc.2 reqs1 (by rw [hgs.2.2.1, hcp]) hrest k1 r hr
          refine ⟨hk.1, hk.2.1, ?_, hk.2.2.2⟩
          rw [hk.2.2.1]
          have hsome := hgs.2.2.2.1
          constructor
          · intro hcontr
            exfalso
            rw [hcontr.2] at hsome
            simp at hsome
          · intro hcontr
            omega

/-- A server stuck in `unpreprocessed` over a mismatched database is
unchanged by any attempted operation sequence. -/
lemma runOps_stuck : ∀ (ops : List ServerOp) (sv : Server),
    sv.status = ServerStatus.unpreprocessed → dbOk sv.params sv.db = false →
    sv.runOps ops = sv := by
  intro ops
  induction ops with
  | nil =>
    intro sv h1 h2
    rfl
  | cons op rest ih =>
    intro sv h1 h2
    have hstep : sv.stepOp op = sv := by
      cases op with
      | preprocessOp a => simp [Server.stepOp, Server.Preprocess, h1, h2]
      | handleOp r hn => simp [Server.stepOp, Server.HandleRequest, h1]
      | getParamsOp => rfl
    unfold Server.runOps
    rw [hstep]
    exact ih sv h1 h2

/-- C1: for every valid record index, every valid Parameter Set and
every database content (with the scheme's bounded-noise randomness), the
round trip RecoverRecord (HandleRequest (GenerateRequest i)) returns
exactly the same bytes as Database.RecordAt i. -/
theorem pir_C1_round_trip (p : Parameters) (db : Database) (aRnd : ℕ → ℕ → ℤ)
    (s : ℕ → ℤ) (rnd : ReqRnd) (hn : ℕ → ℕ → ℤ) (i : ℕ)
    (hp : paramsOk p (numRecords p) = true) (hdb : dbOk p db = true)
    (hi : i < numRecords p) (he : errBounded p rnd.e) (hh : hintNoiseBounded p hn) :
    pirRoundTrip p db aRnd s rnd hn i = db.Record i :=
  roundTrip_correct p db aRnd s rnd hn i hp hdb hi he hh

/-- Witness for C1 at the concrete small instance. -/
theorem pir_C1_witness :
    paramsOk pTiny (numRecords pTiny) = true ∧ dbOk pTiny dbTiny = true ∧
    1 < numRecords pTiny ∧ errBounded pTiny rndTiny.e ∧
    hintNoiseBounded pTiny hnTiny ∧
    pirRoundTrip pTiny dbTiny aTiny sTiny rndTiny hnTiny 1 = dbTiny.Record 1 :=
  ⟨by decide, by decide, by decide, by unfold errBounded; decide,
   by unfold hintNoiseBounded; decide,
   pir_C1_round_trip pTiny dbTiny aTiny sTiny rndTiny hnTiny 1 (by decide) (by decide)
     (by decide) (by unfold errBounded; decide) (by unfold hintNoiseBounded; decide)⟩

/-- C2: in one session the second and every later request is strictly
smaller than the first, by exactly the key-material byte size, with the
other components of equal size. -/
theorem pir_C2_request_sizes (p : Parameters) (capacity : ℕ) (c : Client)
    (qs : List (ℕ × ReqRnd)) (reqs : List Request) (k : ℕ) (r0 rk : Request)
    (hp : paramsOk p capacity = true) (hcp : c.params = p) (hfresh : c.cachedKey = none)
    (hs : sessionRequests c qs = .ok reqs) (hk : 1 ≤ k)
    (h0 : reqs[0]? = some r0) (hrk : reqs[k]? = some rk) :
    requestSize p rk < requestSize p r0 ∧
    requestSize p rk + keyMaterialSize p = requestSize p r0 ∧
    rk.b.length = r0.b.length ∧
    rk.encS.payload.length = r0.encS.payload.length ∧
    rk.keyMaterial = none := by
  have s0 := sessionRequests_spec p qs c reqs hcp hs 0 r0 h0
  have sk := sessionRequests_spec p qs c reqs hcp hs k rk hrk
  have h0some : r0.keyMaterial.isSome = true := s0.2.2.1.mpr ⟨rfl, hfresh⟩
  obtain ⟨km0, hkm0⟩ := Option.isSome_iff_exists.mp h0some
  have hkm0len : km0.galois.length = kmLen p := s0.2.2.2 km0 hkm0
  have hknone : rk.keyMaterial = none := by
    rcases hck : rk.keyMaterial with - | km1
    · rfl
    · exfalso
      have hsome : rk.keyMaterial.isSome = true := by
        rw [hck]
        rfl
      have h2 := sk.2.2.1.mp hsome
      omega
  have hkmpos : 0 < kmLen p := by
    obtain ⟨-, -, -, hqs⟩ := paramsOk_spec p capacity hp
    unfold kmLen
    exact Nat.mul_pos (Nat.pos_of_ne_zero hqs) (pow_pos (by omega) _)
  have hsize0 : requestSize p r0
      = p.db_cols * lweEntryByteSize p + p.lwe_secret_dim * 8 + kmLen p * 8 := by
    unfold requestSize rlweEntryByteSize
    simp only [hkm0, s0.1, s0.2.1, hkm0len]
  have hsizek : requestSize p rk
      = p.db_cols * lweEntryByteSize p + p.lwe_secret_dim * 8 := by
    unfold requestSize rlweEntryByteSize
    simp only [hknone, sk.1, sk.2.1]
    omega
  refine ⟨?_, ?_, ?_, ?_, hknone⟩
  · rw [hsize0, hsizek]
    omega
  · rw [hsize0, hsizek]
    unfold keyMaterialSize rlweEntryByteSize
    omega
  · rw [s0.1, sk.1]
  · rw [s0.2.1, sk.2.1]

/-- Witness for C2: the concrete three-query session on the small
parameters. -/
theorem pir_C2_witness :
    paramsOk pTiny 4 = true ∧ clientTiny.params = pTiny ∧
    clientTiny.cachedKey = none ∧
    sessionRequests clientTiny qsTiny = .ok reqsTiny ∧
    reqsTiny[0]? = some (reqsTiny.getD 0 reqDefault) ∧
    reqsTiny[1]? = some (reqsTiny.getD 1 reqDefault) ∧
    requestSize pTiny (reqsTiny.getD 1 reqDefault)
      < requestSize pTiny (reqsTiny.getD 0 reqDefault) ∧
    requestSize pTiny (reqsTiny.getD 1 reqDefault) + keyMaterialSize pTiny
      = requestSize pTiny (reqsTiny.getD 0 reqDefault) :=
  ⟨by decide, rfl, rfl, by decide, by decide, by decide,
   (pir_C2_request_sizes pTiny 4 clientTiny qsTiny reqsTiny 1
      (reqsTiny.getD 0 reqDefault) (reqsTiny.getD 1 reqDefault)
      (by decide) rfl rfl (by decide) (by decide) (by decide) (by decide)).1,
   (pir_C2_request_sizes pTiny 4 clientTiny qsTiny reqsTiny 1
      (reqsTiny.getD 0 reqDefault) (reqsTiny.getD 1 reqDefault)
      (by decide) rfl rfl (by decide) (by decide) (by decide) (by decide)).2.1⟩

/-- C3: over one client session, the key-material block is present in a
produced request exactly when it is the session's first request. -/
theorem pir_C3_key_material_iff (c : Client) (qs : List (ℕ × ReqRnd))
    (reqs : List Request) (hfresh : c.cachedKey = none)
    (hs : sessionRequests c qs = .ok reqs) :
    ∀ k r, reqs[k]? = some r → (r.keyMaterial.isSome = true ↔ k = 0) := by
  intro k r hr
  have sk := sessionRequests_spec c.params qs c reqs rfl hs k r hr
  rw [sk.2.2.1]
  constructor
  · exact fun h => h.1
  · exact fun h => ⟨h, hfresh⟩

/-- Witness for C3: the concrete session's first and second requests. -/
theorem pir_C3_witness :
    clientTiny.cachedKey = none ∧
    sessionRequests clientTiny qsTiny = .ok reqsTiny ∧
    ((reqsTiny.getD 0 reqDefault).keyMaterial.isSome = true ↔ (0 : ℕ) = 0) ∧
    ((reqsTiny.getD 1 reqDefault).keyMaterial.isSome = true ↔ (1 : ℕ) = 0) :=
  ⟨rfl, by decide,
   pir_C3_key_material_iff clientTiny qsTiny reqsTiny rfl (by decide) 0
     (reqsTiny.getD 0 reqDefault) (by decide),
   pir_C3_key_material_iff clientTiny qsTiny reqsTiny rfl (by decide) 1
     (reqsTiny.getD 1 reqDefault) (by decide)⟩

/-- C4: GenerateRequest fails with OutOfRange exactly when the index is
at least rows·cols; indices 0 and rows·cols − 1 recover correctly and
index rows·cols fails with OutOfRange. -/
theorem pir_C4_index_bounds (p : Parameters) (db : Database) (aRnd : ℕ → ℕ → ℤ)
    (s : ℕ → ℤ) (rnd : ReqRnd) (hn : ℕ → ℕ → ℤ)
    (hp : paramsOk p (numRecords p) = true) (hdb : dbOk p db = true)
    (he : errBounded p rnd.e) (hh : hintNoiseBounded p hn)
    (hpos : 0 < numRecords p) :
    (∀ (c : Client) (i : ℕ) (rnd2 : ReqRnd), c.params = p →
      (c.GenerateRequest i rnd2 = .error .OutOfRange ↔ numRecords p ≤ i)) ∧
    pirRoundTrip p db aRnd s rnd hn 0 = db.Record 0 ∧
    pirRoundTrip p db aRnd s rnd hn (numRecords p - 1)
      = db.Record (numRecords p - 1) ∧
    pirRoundTrip p db aRnd s rnd hn (numRecords p) = .error .OutOfRange := by
  refine ⟨?_, ?_, ?_, ?_⟩
  · intro c i rnd2 hcp
    unfold Client.GenerateRequest
    rw [hcp]
    by_cases hi : i < numRecords p
    · rw [if_pos hi]
      constructor
      · intro h
        exact absurd h (by simp)
      · intro h
        omega
    · rw [if_neg hi]
      constructor
      · intro _
        omega
      · intro _
        rfl
  · exact roundTrip_correct p db aRnd s rnd hn 0 hp hdb hpos he hh
  · exact roundTrip_correct p db aRnd s rnd hn (numRecords p - 1) hp hdb (by omega) he hh
  · unfold pirRoundTrip
    rw [preprocess_eq p db aRnd hdb]
    simp only [except_bind_ok]
    rw [getPP_eq]
    simp only [except_bind_ok]
    rw [create_eq]
    simp only [except_bind_ok]
    unfold Client.GenerateRequest
    rw [if_neg (by simp [clientInit])]
    rfl

/-- Witness for C4 at the concrete small instance. -/
theorem pir_C4_witness :
    paramsOk pTiny (numRecords pTiny) = true ∧ dbOk pTiny dbTiny = true ∧
    (clientTiny.GenerateRequest 4 rndTiny = .error .OutOfRange ↔ numRecords pTiny ≤ 4) ∧
    pirRoundTrip pTiny dbTiny aTiny sTiny rndTiny hnTiny 0 = dbTiny.Record 0 ∧
    pirRoundTrip pTiny dbTiny aTiny sTiny rndTiny hnTiny (numRecords pTiny - 1)
      = dbTiny.Record (numRecords pTiny - 1) ∧
    pirRoundTrip pTiny dbTiny aTiny sTiny rndTiny hnTiny (numRecords pTiny)
      = .error .OutOfRange := by
  have H := pir_C4_index_bounds pTiny dbTiny aTiny sTiny rndTiny hnTiny (by decide)
    (by decide) (by unfold errBounded; decide) (by unfold hintNoiseBounded; decide)
    (by decide)
  exact ⟨by decide, by decide, H.1 clientTiny 4 rndTiny rfl, H.2.1, H.2.2.1, H.2.2.2⟩

/-- C5: a Parameter Set whose row·col product is under the configured
record capacity fails construction with ConfigError, before any key
material can be generated from it. -/
theorem pir_C5_capacity_config_error (p : Parameters) (capacity : ℕ)
    (h : p.db_rows * p.db_cols < capacity) :
    Parameters.Create p capacity = .error .ConfigError ∧
    ∀ keyGen : Parameters → Except PirError KeyMaterial,
      (Parameters.Create p capacity).bind keyGen = .error .ConfigError := by
  have hbad : paramsOk p capacity = false := by
    unfold paramsOk
    have hfirst : decide (capacity ≤ p.db_rows * p.db_cols) = false := by
      simp only [decide_eq_false_iff_not]
      omega
    rw [hfirst]
    simp
  have hcreate : Parameters.Create p capacity = .error .ConfigError := by
    unfold Parameters.Create
    rw [hbad]
    rfl
  refine ⟨hcreate, ?_⟩
  intro keyGen
  rw [hcreate]
  rfl

/-- Witness for C5: the small parameter set against capacity 5. -/
theorem pir_C5_witness :
    pTiny.db_rows * pTiny.db_cols < 5 ∧
    Parameters.Create pTiny 5 = .error .ConfigError :=
  ⟨by decide, (pir_C5_capacity_config_error pTiny 5 (by decide)).1⟩

/-- C7 (amended): HandleRequest never mutates the database, the public
parameters or the configuration; the only state change is the one-time
transition of the status to `serving`, so repeated and subsequent calls
behave exactly as against the original state. -/
theorem pir_C7_no_mutation (sv : Server) (req : Request) (hn : ℕ → ℕ → ℤ)
    (resp : Response) (sv1 : Server)
    (h : sv.HandleRequest req hn = .ok (resp, sv1)) :
    sv1.db = sv.db ∧ sv1.pp = sv.pp ∧ sv1.params = sv.params ∧
    sv1 = { sv with status := ServerStatus.serving } ∧
    ∀ (req2 : Request) (hn2 : ℕ → ℕ → ℤ),
      sv1.HandleRequest req2 hn2 = sv.HandleRequest req2 hn2 := by
  unfold Server.HandleRequest at h
  rcases hst : sv.status with - | - | -
  · rw [hst] at h
    exact absurd h (by simp)
  · rw [hst] at h
    rcases hpp : sv.pp with - | pp
    · rw [hpp] at h
      exact absurd h (by simp)
    · rw [hpp] at h
      dsimp only at h
      by_cases hdim : req.b.length = sv.params.db_cols ∧
        req.encS.payload.length = sv.params.lwe_secret_dim
      · rw [if_pos hdim] at h
        simp only [Except.ok.injEq, Prod.mk.injEq] at h
        obtain ⟨hresp, hsv1⟩ := h
        subst hsv1
        refine ⟨rfl, rfl, rfl, rfl, ?_⟩
        intro req2 hn2
        unfold Server.HandleRequest
        dsimp only
        rw [hst, hpp]
      · rw [if_neg hdim] at h
        exact absurd h (by simp)
  · rw [hst] at h
    rcases hpp : sv.pp with - | pp
    · rw [hpp] at h
      exact absurd h (by simp)
    · rw [hpp] at h
      dsimp only at h
      by_cases hdim : req.b.length = sv.params.db_cols ∧
        req.encS.payload.length = sv.params.lwe_secret_dim
      · rw [if_pos hdim] at h
        simp only [Except.ok.injEq, Prod.mk.injEq] at h
        obtain ⟨hresp, hsv1⟩ := h
        subst hsv1
        refine ⟨rfl, rfl, rfl, rfl, ?_⟩
        intro req2 hn2
        unfold Server.HandleRequest
        dsimp only
        rw [hst, hpp]
      · rw [if_neg hdim] at h
        exact absurd h (by simp)

/-- C7 counterexample: at a concrete preprocessed server and concrete
request, the server state after HandleRequest does not equal the state
before (the status advances to `serving`), refuting the claim's literal
state-equality. -/
theorem pir_C7_counterexample :
    svTinyPre.status = ServerStatus.preprocessed ∧
    (svTinyPre.HandleRequest reqFlat hnTiny).map (fun x => x.2.status)
      = .ok ServerStatus.serving ∧
    (svTinyPre.HandleRequest reqFlat hnTiny).map (fun x => decide (x.2 = svTinyPre))
      = .ok false := by
  refine ⟨rfl, ?_, ?_⟩ <;> decide

/-- Witness for the amended C7 at the concrete instance. -/
theorem pir_C7_witness :
    svTinyServ.db = svTinyPre.db ∧ svTinyServ.pp = svTinyPre.pp ∧
    svTinyServ.params = svTinyPre.params := by
  have H := pir_C7_no_mutation svTinyPre reqFlat hnTiny respTinyFlat svTinyServ
    (by decide)
  exact ⟨H.1, H.2.1, H.2.2.1⟩

/-- C8: GetPublicParams fails in Unpreprocessed and succeeds right after
a successful Preprocess; a failed Preprocess leaves the server unable to
ever reach Serving under any sequence of attempted operations. -/
theorem pir_C8_lifecycle :
    (∀ sv : Server, sv.status = ServerStatus.unpreprocessed →
      sv.GetPublicParams = .error .PreprocessingError) ∧
    (∀ (sv sv1 : Server) (aRnd : ℕ → ℕ → ℤ), sv.Preprocess aRnd = .ok sv1 →
      sv1.status = ServerStatus.preprocessed ∧
      sv1.GetPublicParams = .ok (computePublicParams sv.params sv.db aRnd)) ∧
    (∀ (sv : Server) (aRnd : ℕ → ℕ → ℤ) (err : PirError),
      sv.status = ServerStatus.unpreprocessed → sv.Preprocess aRnd = .error err →
      ∀ ops : List ServerOp, (sv.runOps ops).status ≠ ServerStatus.serving) := by
  refine ⟨?_, ?_, ?_⟩
  · intro sv hst
    unfold Server.GetPublicParams
    rw [hst]
  · intro sv sv1 aRnd h
    unfold Server.Preprocess at h
    rcases hst : sv.status with - | - | -
    all_goals rw [hst] at h
    · by_cases hdb : dbOk sv.params sv.db
      · rw [if_pos hdb] at h
        simp only [Except.ok.injEq] at h
        subst h
        exact ⟨rfl, rfl⟩
      · rw [if_neg hdb] at h
        exact absurd h (by simp)
    · exact absurd h (by simp)
    · exact absurd h (by simp)
  · intro sv aRnd err hst h ops
    have hdb : dbOk sv.params sv.db = false := by
      unfold Server.Preprocess at h
      rw [hst] at h
      by_cases hdb1 : dbOk sv.params sv.db
      · rw [if_pos hdb1] at h
        exact absurd h (by simp)
      · simpa using hdb1
    rw [runOps_stuck ops sv hst hdb, hst]
    simp

/-- Witness for C8 at the concrete servers. -/
theorem pir_C8_witness :
    svTinyU.GetPublicParams = .error .PreprocessingError ∧
    (svTinyPre.status = ServerStatus.preprocessed ∧
      svTinyPre.GetPublicParams
        = .ok (computePublicParams svTinyU.params svTinyU.db aTiny)) ∧
    (svBad.runOps opsBad).status ≠ ServerStatus.serving :=
  ⟨pir_C8_lifecycle.1 svTinyU rfl,
   pir_C8_lifecycle.2.1 svTinyU svTinyPre aTiny (by decide),
   pir_C8_lifecycle.2.2 svBad aTiny .PreprocessingError rfl (by decide) opsBad⟩

/-- C9: CreateWithRandomDatabaseRecords builds a database of exactly
rows·cols records; in the benchmark's configuration this is 1,048,576
records of 8 bytes (8 one-byte slots) each. -/
theorem pir_C9_record_count (p : Parameters) (rnd : ℕ → ℕ → ℕ) :
    (Server.CreateWithRandomDatabaseRecords p rnd).GetDatabase.NumRecords
      = p.db_rows * p.db_cols ∧
    (Server.CreateWithRandomDatabaseRecords kParameters rnd).GetDatabase.NumRecords
      = 1048576 ∧
    recordNumBytes kParameters = 8 ∧
    slotsPerRecord kParameters = 8 := by
  have hgen : ∀ (p1 : Parameters) (rnd1 : ℕ → ℕ → ℕ),
      (Server.CreateWithRandomDatabaseRecords p1 rnd1).GetDatabase.NumRecords
        = p1.db_rows * p1.db_cols := by
    intro p1 rnd1
    unfold Server.CreateWithRandomDatabaseRecords Server.CreateWithDatabase
      Server.GetDatabase Database.NumRecords randomRecords
    dsimp only
    rw [List.length_map, List.length_range]
    rfl
  refine ⟨hgen p rnd, ?_, by decide, by decide⟩
  rw [hgen kParameters rnd]
  decide

/-- C10: the benchmark's main always returns exit code 0, and runs the
registered benchmarks exactly when a nonempty filter value is supplied
on the command line (the filter is cleared before flag parsing). -/
theorem pir_C10_main (args : BenchCmdLine) :
    (mainModel args).exitCode = 0 ∧
    ((mainModel args).ranBenchmarks = true ↔
      ∃ v, args.filterArg = some v ∧ v ≠ []) := by
  rcases args with ⟨filterArg⟩
  rcases filterArg with - | v
  · refine ⟨rfl, ?_⟩
    simp [mainModel]
  · rcases v with - | ⟨ch, cs⟩
    · refine ⟨rfl, ?_⟩
      simp [mainModel]
    · refine ⟨rfl, ?_⟩
      simp [mainModel]

/-- The benchmark's concrete parameter set passes the modelled
validation at its own record capacity. -/
theorem kParameters_validates : paramsOk kParameters (numRecords kParameters) = true := by
  decide

end HintlessPir

